import Mathlib

/-!
Verification development for the voice-biometric attendance program
(`src/main.py`).  The program keeps three persistent pieces of state:

* a students directory (`students.json`): a dict from a student's name to a
  metadata record,
* an embedding store (one `.npy` file per name under `data/embeddings`),
* an attendance ledger (`attendance.json`): a dict from an ISO date string to
  a list of names.

Python dicts preserve insertion order; they are embedded here as association
lists over `String` keys with the usual dict operations (`dictGet`,
`dictSet`, `dictDel`).  Floating-point vectors are embedded as `List ℝ`.
-/

namespace VoiceAttendance

/-- Lookup in an ordered association list, mirroring `d[k]` / `k in d` on a
Python dict. -/
def dictGet {α : Type} : List (String × α) → String → Option α
  | [], _ => none
  | (k', v) :: rest, k => if k' = k then some v else dictGet rest k

/-- Assignment `d[k] = v` on a Python dict: replaces the value in place when
the key exists (keeping its position in iteration order), otherwise appends
the new binding at the end. -/
def dictSet {α : Type} : List (String × α) → String → α → List (String × α)
  | [], k, v => [(k, v)]
  | (k', v') :: rest, k, v =>
      if k' = k then (k, v) :: rest else (k', v') :: dictSet rest k v

/-- Deletion `del d[k]` on a Python dict: the binding of `k` disappears. -/
def dictDel {α : Type} (l : List (String × α)) (k : String) :
    List (String × α) :=
  l.filter (fun p => p.1 ≠ k)

theorem dictGet_dictSet_self {α : Type} (l : List (String × α)) (k : String)
    (v : α) : dictGet (dictSet l k v) k = some v := by
  induction l with
  | nil => simp [dictGet, dictSet]
  | cons hd tl ih =>
      obtain ⟨a, b⟩ := hd
      by_cases h : a = k
      · simp [dictGet, dictSet, h]
      · simpa [dictGet, dictSet, h] using ih

theorem dictGet_dictSet_ne {α : Type} (l : List (String × α)) (k k' : String)
    (v : α) (h : k' ≠ k) : dictGet (dictSet l k v) k' = dictGet l k' := by
  have h' : ¬ k = k' := fun hk => h hk.symm
  induction l with
  | nil => simp [dictGet, dictSet, h']
  | cons hd tl ih =>
      obtain ⟨a, b⟩ := hd
      by_cases hk : a = k
      · simp [dictGet, dictSet, hk, h']
      · by_cases hk' : a = k'
        · simp [dictGet, dictSet, hk, hk', h]
        · simpa [dictGet, dictSet, hk, hk'] using ih

theorem dictGet_dictDel_self {α : Type} (l : List (String × α)) (k : String) :
    dictGet (dictDel l k) k = none := by
  induction l with
  | nil => simp [dictGet, dictDel]
  | cons hd tl ih =>
      obtain ⟨a, b⟩ := hd
      by_cases h : a = k
      · simpa [dictDel, List.filter, h] using ih
      · simpa [dictDel, dictGet, List.filter, h] using ih

theorem dictGet_dictDel_ne {α : Type} (l : List (String × α)) (k k' : String)
    (h : k' ≠ k) : dictGet (dictDel l k) k' = dictGet l k' := by
  induction l with
  | nil => simp [dictGet, dictDel]
  | cons hd tl ih =>
      obtain ⟨a, b⟩ := hd
      by_cases hk : a = k
      · have hne : ¬ k = k' := fun hh => h hh.symm
        simpa [dictDel, dictGet, List.filter, hk, hne] using ih
      · by_cases hk' : a = k'
        · simp [dictDel, dictGet, List.filter, hk, hk', h]
        · simpa [dictDel, dictGet, List.filter, hk, hk'] using ih

theorem mem_dictSet {α : Type} (l : List (String × α)) (k : String) (v : α)
    (p : String × α) (hp : p ∈ dictSet l k v) : p = (k, v) ∨ p ∈ l := by
  induction l with
  | nil => simpa [dictSet] using hp
  | cons hd tl ih =>
      obtain ⟨a, b⟩ := hd
      by_cases h : a = k
      · rw [dictSet, if_pos h] at hp
        rcases List.mem_cons.mp hp with h1 | h1
        · exact Or.inl h1
        · exact Or.inr (List.mem_cons_of_mem _ h1)
      · rw [dictSet, if_neg h] at hp
        rcases List.mem_cons.mp hp with h1 | h1
        · exact Or.inr (by simp [h1])
        · rcases ih h1 with h2 | h2
          · exact Or.inl h2
          · exact Or.inr (List.mem_cons_of_mem _ h2)

/-! ## Attendance ledger (`mark_attendance`, `get_attendance`) -/

theorem dictGet_mem {α : Type} (l : List (String × α)) (k : String) (v : α)
    (h : dictGet l k = some v) : (k, v) ∈ l := by
  induction l with
  | nil => simp [dictGet] at h
  | cons hd tl ih =>
      obtain ⟨a, b⟩ := hd
      by_cases hk : a = k
      · rw [dictGet, if_pos hk] at h
        subst hk
        simp [Option.some_inj.mp h]
      · rw [dictGet, if_neg hk] at h
        exact List.mem_cons_of_mem _ (ih h)

/-- The attendance ledger as loaded from `attendance.json`: a dict from an
ISO date string to the list of names marked present on that date. -/
abbrev Ledger : Type := List (String × List String)

/-- `mark_attendance` from `src/main.py` (lines 59–71), with the date passed
explicitly instead of read from the clock.  It ensures the date has an entry,
then appends the name to that date's list only when it is not already there,
and writes the result back. -/
def mark_attendance (name today : String) (attendance : Ledger) : Ledger :=
  let att1 : Ledger :=
    if (dictGet attendance today).isSome then attendance
    else dictSet attendance today []
  let cur : List String := (dictGet att1 today).getD []
  if name ∈ cur then att1 else dictSet att1 today (cur ++ [name])

/-- `get_attendance` from `src/main.py` (lines 73–77): returns the dict
stored in `attendance.json`, or the empty dict when the file does not exist
(`none`).  It never fails. -/
def get_attendance (file : Option Ledger) : Ledger :=
  match file with
  | none => []
  | some a => a

/-- Modelled from the spec: the per-date read `query(date) -> set of id`
(`§4.3`), which `src/main.py` only realizes implicitly (the "Show Attendance"
view iterates the dates present in `get_attendance()`; a date absent from the
dict has no recorded ids).  It is the per-date lookup over `get_attendance`,
defaulting to the empty list. -/
def queryDate (d : String) (file : Option Ledger) : List String :=
  (dictGet (get_attendance file) d).getD []

/-- After `mark_attendance name today`, the date `today` is bound and its
list contains `name`. -/
theorem mark_attendance_records (name today : String) (att : Ledger) :
    ∃ l, dictGet (mark_attendance name today att) today = some l ∧
      name ∈ l := by
  unfold mark_attendance
  cases hq : dictGet att today with
  | some l =>
      simp only [hq, Option.isSome_some, if_true, Option.getD_some]
      by_cases hn : name ∈ l
      · exact ⟨l, by simp [hn, hq], hn⟩
      · exact ⟨l ++ [name], by simp [hn, dictGet_dictSet_self], by simp⟩
  | none =>
      simp only [hq, Option.isSome_none, Bool.false_eq_true, if_false,
        dictGet_dictSet_self, Option.getD_some, List.not_mem_nil,
        List.nil_append]
      exact ⟨[name], by simp [dictGet_dictSet_self], by simp⟩

/-- When the name is already in the date's list, `mark_attendance` leaves the
ledger unchanged (the membership check at line 68 of `src/main.py` skips the
append). -/
theorem mark_attendance_noop (name today : String) (att : Ledger)
    (l : List String) (hl : dictGet att today = some l) (hn : name ∈ l) :
    mark_attendance name today att = att := by
  unfold mark_attendance
  simp [hl, hn]

/-- C5: `markPresent` is idempotent.  Calling `mark_attendance` twice with
the same name and date yields the same ledger as calling it once, and when
the name is already recorded for the date the call changes nothing (and,
being total, raises no error). -/
theorem markPresent_idempotent (n d : String) (att : Ledger) :
    mark_attendance n d (mark_attendance n d att) = mark_attendance n d att ∧
    ∀ l, dictGet att d = some l → n ∈ l → mark_attendance n d att = att := by
  constructor
  · obtain ⟨l, hl, hn⟩ := mark_attendance_records n d att
    exact mark_attendance_noop n d _ l hl hn
  · intro l hl hn
    exact mark_attendance_noop n d att l hl hn

theorem markPresent_idempotent_witness :
    mark_attendance "A" "2024-01-01"
        (mark_attendance "A" "2024-01-01" [("2024-01-01", ["A"])]) =
      mark_attendance "A" "2024-01-01" [("2024-01-01", ["A"])] ∧
    mark_attendance "A" "2024-01-01" [("2024-01-01", ["A"])] =
      [("2024-01-01", ["A"])] :=
  ⟨(markPresent_idempotent "A" "2024-01-01" [("2024-01-01", ["A"])]).1,
   (markPresent_idempotent "A" "2024-01-01" [("2024-01-01", ["A"])]).2
     ["A"] (by simp [dictGet]) (by simp)⟩

/-- C6: `markPresent` preserves per-date uniqueness.  If every date's list
in the ledger has no duplicate names before a `mark_attendance` call, the
same holds afterwards (the call appends a name only after checking it is not
already in the date's list). -/
theorem markPresent_nodup (n d : String) (att : Ledger)
    (h : ∀ p ∈ att, p.2.Nodup) :
    ∀ p ∈ mark_attendance n d att, p.2.Nodup := by
  unfold mark_attendance
  have h1 : ∀ p ∈ (if (dictGet att d).isSome then att
      else dictSet att d []), p.2.Nodup := by
    by_cases hq : (dictGet att d).isSome
    · simpa [hq] using h
    · simp only [hq, if_false, Bool.false_eq_true]
      intro p hp
      rcases mem_dictSet att d [] p hp with hp1 | hp1
      · simp [hp1]
      · exact h p hp1
  set att1 := if (dictGet att d).isSome then att else dictSet att d []
  by_cases hn : n ∈ (dictGet att1 d).getD []
  · simpa [hn] using h1
  · simp only [hn, if_false]
    intro p hp
    rcases mem_dictSet att1 d _ p hp with hp1 | hp1
    · have hcur : ((dictGet att1 d).getD []).Nodup := by
        cases hq : dictGet att1 d with
        | some l => simpa [hq] using h1 (d, l) (dictGet_mem att1 d l hq)
        | none => simp [hq]
      have : ((dictGet att1 d).getD [] ++ [n]).Nodup :=
        List.Nodup.append hcur (List.nodup_singleton n)
          ((List.disjoint_singleton).mpr hn)
      simpa [hp1] using this
    · exact h1 p hp1

theorem markPresent_nodup_witness :
    (∀ p ∈ ([("2024-01-01", ["B"])] : Ledger), p.2.Nodup) ∧
    ∀ p ∈ mark_attendance "A" "2024-01-01" [("2024-01-01", ["B"])],
      p.2.Nodup :=
  ⟨by simp,
   markPresent_nodup "A" "2024-01-01" [("2024-01-01", ["B"])] (by simp)⟩

/-- C7: `markPresent` only appends.  Dates other than the one being marked
keep exactly their previous lists, and every name already recorded for the
marked date is still recorded afterwards. -/
theorem markPresent_frame (n d : String) (att : Ledger) :
    (∀ d', d' ≠ d →
      dictGet (mark_attendance n d att) d' = dictGet att d') ∧
    ∀ x ∈ (dictGet att d).getD [],
      x ∈ (dictGet (mark_attendance n d att) d).getD [] := by
  constructor
  · intro d' hd'
    unfold mark_attendance
    have h1 : dictGet (if (dictGet att d).isSome then att
        else dictSet att d []) d' = dictGet att d' := by
      by_cases hq : (dictGet att d).isSome
      · simp [hq]
      · simp [hq, dictGet_dictSet_ne _ _ _ _ hd']
    set att1 := if (dictGet att d).isSome then att else dictSet att d []
    by_cases hn : n ∈ (dictGet att1 d).getD []
    · simpa [hn] using h1
    · simpa [hn, dictGet_dictSet_ne _ _ _ _ hd'] using h1
  · intro x hx
    cases hq : dictGet att d with
    | some l =>
        unfold mark_attendance
        simp only [hq, Option.isSome_some, if_true, Option.getD_some] at hx ⊢
        by_cases hn : n ∈ l
        · simpa [hn, hq] using hx
        · simp only [hn, if_false, dictGet_dictSet_self, Option.getD_some]
          exact List.mem_append_left _ hx
    | none => simp [hq] at hx

theorem markPresent_frame_witness :
    dictGet (mark_attendance "A" "2024-01-01" [("2024-01-01", ["B"])])
        "2024-01-02" =
      dictGet [("2024-01-01", ["B"])] "2024-01-02" ∧
    "B" ∈ (dictGet (mark_attendance "A" "2024-01-01" [("2024-01-01", ["B"])])
        "2024-01-01").getD [] :=
  ⟨(markPresent_frame "A" "2024-01-01" [("2024-01-01", ["B"])]).1
     "2024-01-02" (by decide),
   (markPresent_frame "A" "2024-01-01" [("2024-01-01", ["B"])]).2
     "B" (by simp [dictGet])⟩

/-- C9: querying a date with no recorded activity yields the empty list and
never an error.  When no attendance was ever recorded (`attendance.json`
absent), the ledger reads as the empty mapping and every date queries to the
empty list; on any stored ledger, a date absent from the mapping queries to
the empty list. -/
theorem queryDate_absent :
    (∀ d, queryDate d none = []) ∧
    ∀ fs d, dictGet (get_attendance fs) d = none → queryDate d fs = [] := by
  constructor
  · intro d
    rfl
  · intro fs d h
    unfold queryDate
    rw [h]
    rfl

theorem queryDate_absent_witness :
    queryDate "2024-01-02" none = [] ∧
    queryDate "2024-01-02" (some [("2024-01-01", ["A"])]) = [] :=
  ⟨queryDate_absent.1 "2024-01-02",
   queryDate_absent.2 (some [("2024-01-01", ["A"])]) "2024-01-02"
     (by simp [get_attendance, dictGet])⟩

/-! ## Students directory and embedding store (enrollment, deletion) -/

/-- The metadata record stored under `students[name]` at lines 106–113 of
`src/main.py`. -/
structure Student where
  name : String
  std : String
  div : String
  year : String
  roll_no : String
  emergency_contact : String
deriving DecidableEq

/-- The persistent state touched by enrollment and deletion: the embedding
store (`data/embeddings/<name>.npy`, one vector per name) and the students
directory (`students.json`). -/
structure EnrollState where
  embeddings : List (String × List ℝ)
  students : List (String × Student)

/-- Result of the "Record & Enroll" handler (lines 97–116 of `src/main.py`),
with the possibility that the metadata write (`save_students`) fails after
`save_embedding` already succeeded.  `metadataSaveFailed` carries the state
left behind in that case. -/
inductive EnrollResult where
  | ok (s : EnrollState)
  | metadataSaveFailed (s : EnrollState)

/-- The "Record & Enroll" handler (lines 105–114 of `src/main.py`): it first
calls `save_embedding(name, emb)`, then assigns
`students[name] = {"name": name, "std": std, ...}` and calls
`save_students()`.  The `metaOk` flag injects a failure of the
`save_students` write; the code has no rollback, so on failure the state
after the already-performed `save_embedding` is returned. -/
def enroll (s : EnrollState) (name std dv yr roll contact : String)
    (emb : List ℝ) (metaOk : Bool) : EnrollResult :=
  let s1 : EnrollState := { s with embeddings := dictSet s.embeddings name emb }
  if metaOk then
    .ok { s1 with
          students := dictSet s1.students name
            ⟨name, std, dv, yr, roll, contact⟩ }
  else
    .metadataSaveFailed s1

/-- The Delete button handler (lines 190–194 of `src/main.py`): when the
name is in the directory it deletes the directory entry and saves; it never
touches the embedding store. -/
def deleteStudent (s : EnrollState) (name : String) : EnrollState :=
  if (dictGet s.students name).isSome then
    { s with students := dictDel s.students name }
  else s

/-- C2 counterexample: with "A" enrolled (directory entry and embedding
both present), deleting "A" removes the directory entry, but the embedding
store still returns A's vector — it does not fail with `NotFound` as the
claim states. -/
theorem remove_leaves_embedding_cex :
    dictGet (deleteStudent
        ⟨[("A", [1])], [("A", ⟨"A", "1", "B", "2024", "7", "555"⟩)]⟩
        "A").students "A" = none ∧
    dictGet (deleteStudent
        ⟨[("A", [1])], [("A", ⟨"A", "1", "B", "2024", "7", "555"⟩)]⟩
        "A").embeddings "A" = some [1] := by
  constructor
  · simp [deleteStudent, dictGet, dictDel, List.filter]
  · simp [deleteStudent, dictGet]

/-- C2 amended: deletion removes only the directory metadata.  After
`deleteStudent s name`, looking the name up in the directory fails
(`NotFound`), while the embedding store is left exactly as it was — any stored
embedding for the name remains (an orphan). -/
theorem remove_deletes_metadata_only (s : EnrollState) (name : String) :
    dictGet (deleteStudent s name).students name = none ∧
    (deleteStudent s name).embeddings = s.embeddings := by
  unfold deleteStudent
  by_cases h : (dictGet s.students name).isSome
  · simp [h, dictGet_dictDel_self]
  · constructor
    · simpa [h] using Option.not_isSome_iff_eq_none.mp (by simpa using h)
    · simp [h]

/-- C3 counterexample: starting from the empty state, enrolling "A" with a
failing metadata write leaves a state where the embedding for "A" is saved
but the directory has no entry for "A" — the partial state the claim says is
not silently possible.  The embedding is written first, before the metadata
write is attempted, and nothing rolls it back. -/
theorem enroll_partial_write_cex :
    enroll ⟨[], []⟩ "A" "1" "B" "2024" "7" "555" [1] false =
      .metadataSaveFailed ⟨[("A", [1])], []⟩ ∧
    dictGet ([("A", [(1 : ℝ)])]) "A" = some [1] ∧
    dictGet ([] : List (String × Student)) "A" = none := by
  refine ⟨rfl, ?_, rfl⟩
  simp [dictGet]

/-- C3 amended: enrollment writes the embedding before the metadata, with no
rollback.  When the metadata write fails, the resulting state has the
embedding stored under the enrolled name while the directory is unchanged,
so the "embedding saved, metadata save failed" state is reachable. -/
theorem enroll_metadata_failure (s : EnrollState)
    (name std dv yr roll contact : String) (emb : List ℝ) :
    ∃ s', enroll s name std dv yr roll contact emb false =
        .metadataSaveFailed s' ∧
      dictGet s'.embeddings name = some emb ∧ s'.students = s.students := by
  exact ⟨_, rfl, dictGet_dictSet_self s.embeddings name emb, rfl⟩

/-- C8: round-trip at enrollment.  A successful enrollment stores the
metadata record built from the entered fields and the computed embedding;
looking the name up in the directory returns exactly that record, and the
embedding store returns exactly that vector (the embedding is modelled over
exact reals, so "within floating tolerance" is exact equality here). -/
theorem register_find_roundtrip (s : EnrollState)
    (name std dv yr roll contact : String) (emb : List ℝ) :
    ∃ s', enroll s name std dv yr roll contact emb true = .ok s' ∧
      dictGet s'.students name = some ⟨name, std, dv, yr, roll, contact⟩ ∧
      dictGet s'.embeddings name = some emb := by
  exact ⟨_, rfl, dictGet_dictSet_self s.students name _,
    dictGet_dictSet_self s.embeddings name emb⟩

/-- The students directory is keyed by the record's own `name` field. -/
def DirKeyedByName (dir : List (String × Student)) : Prop :=
  ∀ k r, dictGet dir k = some r → r.name = k

/-- C10: the directory-keyed-by-name invariant is preserved.  Enrollment
stores under key `name` a record whose `name` field is that same string, and
deletion only removes entries, so if every stored record's `name` field
equals its key before either operation, the same holds after. -/
theorem directory_keyed_by_name (s : EnrollState)
    (h : DirKeyedByName s.students)
    (name std dv yr roll contact : String) (emb : List ℝ) (nameD : String) :
    (∀ s', enroll s name std dv yr roll contact emb true = .ok s' →
      DirKeyedByName s'.students) ∧
    DirKeyedByName (deleteStudent s nameD).students := by
  constructor
  · intro s' hs'
    rw [show enroll s name std dv yr roll contact emb true =
        .ok ⟨dictSet s.embeddings name emb,
          dictSet s.students name ⟨name, std, dv, yr, roll, contact⟩⟩
        from rfl] at hs'
    injection hs' with h2
    subst h2
    intro k r hk
    by_cases hkn : k = name
    · subst hkn
      rw [dictGet_dictSet_self] at hk
      rw [← Option.some_inj.mp hk]
    · rw [dictGet_dictSet_ne _ _ _ _ hkn] at hk
      exact h k r hk
  · intro k r hk
    by_cases hq : (dictGet s.students nameD).isSome
    · rw [deleteStudent, if_pos hq] at hk
      by_cases hkn : k = nameD
      · subst hkn
        rw [show ({ s with students := dictDel s.students k } :
            EnrollState).students = dictDel s.students k from rfl,
          dictGet_dictDel_self] at hk
        cases hk
      · rw [show ({ s with students := dictDel s.students nameD } :
            EnrollState).students = dictDel s.students nameD from rfl,
          dictGet_dictDel_ne _ _ _ hkn] at hk
        exact h k r hk
    · rw [deleteStudent, if_neg hq] at hk
      exact h k r hk

theorem directory_keyed_by_name_witness :
    DirKeyedByName ([] : List (String × Student)) ∧
    ((∀ s', enroll ⟨[], []⟩ "A" "1" "B" "2024" "7" "555" [1] true = .ok s' →
        DirKeyedByName s'.students) ∧
      DirKeyedByName (deleteStudent ⟨[], []⟩ "A").students) :=
  ⟨fun k r hk => by simp [dictGet] at hk,
   directory_keyed_by_name ⟨[], []⟩ (fun k r hk => by simp [dictGet] at hk)
     "A" "1" "B" "2024" "7" "555" [1] "A"⟩

/-! ## Identity matcher (Recognize Voice loop) -/

/-- Dot product of two real vectors (`numpy` inner product on
equal-length 1-D arrays). -/
noncomputable def dot (u v : List ℝ) : ℝ :=
  (List.zipWith (fun a b => a * b) u v).sum

/-- `scipy.spatial.distance.cosine`: the cosine distance
`1 - ⟨u,v⟩ / (‖u‖ ‖v‖)`. -/
noncomputable def cosineDistance (u v : List ℝ) : ℝ :=
  1 - dot u v / (Real.sqrt (dot u u) * Real.sqrt (dot v v))

/-- Result of one scoring pass of the recognition loop. -/
inductive MatchResult where
  | Matched (id : String) (score : ℝ)
  | NoMatch

/-- The scoring pass of the Recognize Voice loop (lines 139–149 of
`src/main.py`): iterate over the students in dict order, pair each with its
stored embedding, compute `sim = 1 - cosine(ref_emb, rec_emb)`, and stop at
the first student with `sim > 0.75` (the loop `break`s there; on a match it
also marks attendance, modelled separately by `mark_attendance`).  When the
stored vector's length differs from the query's, `cosine` raises an untyped
`ValueError` that aborts the whole pass, modelled as `.error ()`. -/
noncomputable def recognize (recEmb : List ℝ) :
    List (String × List ℝ) → Except Unit MatchResult
  | [] => .ok .NoMatch
  | (name, refEmb) :: rest =>
      if refEmb.length ≠ recEmb.length then .error ()
      else if 1 - cosineDistance refEmb recEmb > 0.75 then
        .ok (.Matched name (1 - cosineDistance refEmb recEmb))
      else recognize recEmb rest

theorem sim_unit_pair : (1 : ℝ) - cosineDistance [1, 0] [1, 0] = 1 := by
  have hd : dot [1, 0] [1, 0] = (1 : ℝ) := by
    simp [dot]
  rw [cosineDistance, hd, Real.sqrt_one]
  norm_num

theorem sim_fourFifths : (1 : ℝ) - cosineDistance [4, 3] [1, 0] = 4 / 5 := by
  have hAA : dot [4, 3] [4, 3] = (25 : ℝ) := by
    simp [dot]; norm_num
  have hqq : dot [1, 0] [1, 0] = (1 : ℝ) := by
    simp [dot]
  have hAq : dot [4, 3] [1, 0] = (4 : ℝ) := by
    simp [dot]
  have h25 : Real.sqrt 25 = 5 := by
    rw [show (25 : ℝ) = 5 ^ 2 by norm_num]
    exact Real.sqrt_sq (by norm_num)
  rw [cosineDistance, hAA, hqq, hAq, h25, Real.sqrt_one]
  norm_num

/-- C1 counterexample: with "A" (vector `[4,3]`, similarity `4/5`) stored
before "B" (vector `[1,0]`, similarity `1`) and query `[1,0]`, the scoring
pass returns `Matched "A" (4/5)` even though "B" has the strictly greater
score `1` — the loop breaks at the first candidate above `0.75` and does not
select the candidate with maximum score, as the claim states. -/
theorem recognize_not_max_cex :
    recognize [1, 0] [("A", [4, 3]), ("B", [1, 0])] =
      .ok (.Matched "A" (4 / 5)) ∧
    (1 : ℝ) - cosineDistance [1, 0] [1, 0] = 1 ∧
    (4 / 5 : ℝ) < 1 := by
  refine ⟨?_, sim_unit_pair, by norm_num⟩
  have step1 : recognize [1, 0] [("A", [4, 3]), ("B", [1, 0])] =
      if (1 : ℝ) - cosineDistance [4, 3] [1, 0] > 0.75 then
        Except.ok (MatchResult.Matched "A"
          ((1 : ℝ) - cosineDistance [4, 3] [1, 0]))
      else recognize [1, 0] [("B", [1, 0])] := rfl
  rw [step1, if_pos (by rw [sim_fourFifths]; norm_num), sim_fourFifths]

/-- C1 amended: on a store whose vectors all have the query's dimension, the
scoring pass returns `Matched` for the *first* candidate in dict iteration
order whose similarity strictly exceeds `0.75` (not necessarily the one with
maximum score), and `NoMatch` when no candidate exceeds `0.75`; in
particular the empty store always yields `NoMatch`. -/
theorem recognize_first_above (q : List ℝ) (store : List (String × List ℝ))
    (hdim : ∀ p ∈ store, (p.2).length = q.length) :
    recognize q store =
      .ok (match store.find?
          (fun p => decide ((1 : ℝ) - cosineDistance p.2 q > 0.75)) with
        | some p => .Matched p.1 ((1 : ℝ) - cosineDistance p.2 q)
        | none => .NoMatch) := by
  induction store with
  | nil => rfl
  | cons hd tl ih =>
      obtain ⟨n, v⟩ := hd
      have hlen : v.length = q.length := hdim (n, v) (List.mem_cons_self _ _)
      have step : recognize q ((n, v) :: tl) =
          if v.length ≠ q.length then Except.error ()
          else if 1 - cosineDistance v q > 0.75 then
            Except.ok (MatchResult.Matched n (1 - cosineDistance v q))
          else recognize q tl := rfl
      rw [step, if_neg (by simp [hlen])]
      by_cases hs : (1 : ℝ) - cosineDistance v q > 0.75
      · rw [if_pos hs, List.find?_cons_of_pos _ (by simpa using hs)]
      · rw [if_neg hs, List.find?_cons_of_neg _ (by simpa using hs)]
        exact ih fun p hp => hdim p (List.mem_cons_of_mem _ hp)

theorem recognize_first_above_witness :
    (∀ p ∈ [("A", ([1, 0] : List ℝ))], (p.2).length =
      ([1, 0] : List ℝ).length) ∧
    recognize [1, 0] [("A", [1, 0])] =
      .ok (match List.find?
          (fun p => decide ((1 : ℝ) - cosineDistance p.2 [1, 0] > 0.75))
          [("A", [1, 0])] with
        | some p => .Matched p.1 ((1 : ℝ) - cosineDistance p.2 [1, 0])
        | none => .NoMatch) :=
  ⟨by simp, recognize_first_above [1, 0] [("A", [1, 0])] (by simp)⟩

/-- C4 counterexample: query `[0,1,0]` against a store holding "A" with the
two-dimensional vector `[1,0]` followed by "B" with `[0,1,0]`.  The
dimension mismatch on "A" aborts the whole scoring pass with an error, even
though "B" — scored alone — would have been a perfect match; the mismatch is
not a typed per-candidate failure that lets scoring continue. -/
theorem recognize_mismatch_cex :
    recognize [0, 1, 0] [("A", [1, 0]), ("B", [0, 1, 0])] = .error () ∧
    recognize [0, 1, 0] [("B", [0, 1, 0])] = .ok (.Matched "B" 1) := by
  constructor
  · rfl
  · have hsim : (1 : ℝ) - cosineDistance [0, 1, 0] [0, 1, 0] = 1 := by
      have hd : dot [0, 1, 0] [0, 1, 0] = (1 : ℝ) := by
        simp [dot]
      rw [cosineDistance, hd, Real.sqrt_one]
      norm_num
    have step : recognize [0, 1, 0] [("B", [0, 1, 0])] =
        if (1 : ℝ) - cosineDistance [0, 1, 0] [0, 1, 0] > 0.75 then
          Except.ok (MatchResult.Matched "B"
            ((1 : ℝ) - cosineDistance [0, 1, 0] [0, 1, 0]))
        else recognize [0, 1, 0] [] := rfl
    rw [step, if_pos (by rw [hsim]; norm_num), hsim]

/-- C4 amended: when the candidates scored before some stored vector all
have the query's dimension and similarity at most `0.75`, and that vector's
dimension differs from the query's, the scoring pass aborts as a whole with
an untyped error — no later candidate is scored and no per-candidate typed
`DimensionMismatch` result is produced. -/
theorem recognize_mismatch_aborts (q : List ℝ)
    (pre : List (String × List ℝ)) (n : String) (v : List ℝ)
    (rest : List (String × List ℝ))
    (hpre : ∀ p ∈ pre, (p.2).length = q.length ∧
      ¬((1 : ℝ) - cosineDistance p.2 q > 0.75))
    (hv : v.length ≠ q.length) :
    recognize q (pre ++ (n, v) :: rest) = .error () := by
  induction pre with
  | nil =>
      rw [List.nil_append]
      have step : recognize q ((n, v) :: rest) =
          if v.length ≠ q.length then Except.error ()
          else if 1 - cosineDistance v q > 0.75 then
            Except.ok (MatchResult.Matched n (1 - cosineDistance v q))
          else recognize q rest := rfl
      rw [step, if_pos hv]
  | cons hd tl ih =>
      obtain ⟨m, w⟩ := hd
      have h1 := hpre (m, w) (List.mem_cons_self _ _)
      have step : recognize q (((m, w) :: tl) ++ (n, v) :: rest) =
          if w.length ≠ q.length then Except.error ()
          else if 1 - cosineDistance w q > 0.75 then
            Except.ok (MatchResult.Matched m (1 - cosineDistance w q))
          else recognize q (tl ++ (n, v) :: rest) := rfl
      rw [step, if_neg (by simp [h1.1]), if_neg h1.2]
      exact ih fun p hp => hpre p (List.mem_cons_of_mem _ hp)

theorem recognize_mismatch_aborts_witness :
    (∀ p ∈ ([] : List (String × List ℝ)),
      (p.2).length = ([1] : List ℝ).length ∧
      ¬((1 : ℝ) - cosineDistance p.2 [1] > 0.75)) ∧
    ([1, 0] : List ℝ).length ≠ ([1] : List ℝ).length ∧
    recognize [1] ([] ++ ("A", [1, 0]) :: []) = .error () :=
  ⟨by simp, by simp,
   recognize_mismatch_aborts [1] [] "A" [1, 0] [] (by simp) (by simp)⟩

end VoiceAttendance
